import Mathlib

/-!
Verification development for the SAR-Conflict-Tracker repository.

The Python sources (`sar_pipeline.py`, `downloader.py`) are shallowly embedded
below.  Strings are manipulated through their underlying character lists so
that every definition evaluates by kernel reduction.  Python `datetime`
values are represented as integers counting microseconds since the epoch
1970-01-01T00:00:00 (CPython `datetime` has microsecond resolution);
`timedelta.days` is floored division by one day, embedded with `Int.fdiv`.
The model covers naive (offset-free) datetimes, which is the case the
pipeline normalises to: the source strips `Z`/`+00:00` markers before
parsing and never constructs offset-aware values on the paths modelled here.
-/

namespace SARTracker

/-- Microseconds in one day (the resolution of CPython `datetime`). -/
def usPerDay : Int := 86400000000

/-! ### Character-list string primitives (Python `in`, `replace`, `lower`, …) -/

/-- Python `c in s` for a single character. -/
def containsCharL (c : Char) : List Char → Bool
  | [] => false
  | a :: t => a == c || containsCharL c t

/-- Does the pattern match at the head of the list? -/
def leadMatch : List Char → List Char → Bool
  | [], _ => true
  | _ :: _, [] => false
  | p :: ps, c :: cs => p == c && leadMatch ps cs

/-- Python `pat in s` (substring containment). -/
def subL (pat : List Char) : List Char → Bool
  | [] => pat.isEmpty
  | c :: rest => leadMatch pat (c :: rest) || subL pat rest

/-- One fuelled step of Python `str.replace`: left-to-right, non-overlapping.
Fuel is the length of the subject, enough because each step consumes at least
one character (the pattern is non-empty on every call site). -/
def replaceFuel (pat rep : List Char) : Nat → List Char → List Char
  | 0, s => s
  | Nat.succ fuel, s =>
    match s with
    | [] => []
    | c :: rest =>
      if !pat.isEmpty && leadMatch pat (c :: rest) then
        rep ++ replaceFuel pat rep fuel (List.drop (pat.length - 1) rest)
      else
        c :: replaceFuel pat rep fuel rest

/-- Python `s.replace(pat, rep)` for a non-empty pattern. -/
def replaceAllL (pat rep s : List Char) : List Char :=
  replaceFuel pat rep s.length s

/-- Python `str.lower` restricted to ASCII (SAFE filenames are ASCII). -/
def lowerCh (c : Char) : Char :=
  if 'A' ≤ c && c ≤ 'Z' then Char.ofNat (c.toNat + 32) else c

/-- Lowercase every character. -/
def lowerL (s : List Char) : List Char := s.map lowerCh

/-- Python `s.endswith(pat)`. -/
def endsWithL (pat s : List Char) : Bool :=
  leadMatch pat.reverse s.reverse

/-- Python `s.startswith(pat)`. -/
def startsWithL (pat s : List Char) : Bool :=
  leadMatch pat s

/-- Python `s.rstrip('/')`: drop every trailing slash. -/
def rstripSlashL (s : List Char) : List Char :=
  (s.reverse.dropWhile (fun c => c == '/')).reverse

/-! ### ISO-8601 datetime parsing (model of `datetime.fromisoformat`)

The source hands `datetime.fromisoformat` strings of the shape
`YYYY-MM-DD[<sep>HH[:MM[:SS[.ffffff]]]]` after stripping `Z` / `+00:00`.
The model parses exactly that shape, validates calendar ranges the way
CPython does, and yields microseconds since 1970-01-01.  Strings that still
carry a non-zero UTC offset are treated as parse failures (the pipeline
never produces them on the modelled paths). -/

/-- Numeric value of an ASCII digit. -/
def digitVal (c : Char) : Option Nat :=
  if c.isDigit then some (c.toNat - '0'.toNat) else none

/-- Read exactly `n` digits, returning their value and the rest of the input. -/
def readDigitsAux : Nat → Nat → List Char → Option (Nat × List Char)
  | 0, acc, s => some (acc, s)
  | Nat.succ _, _, [] => none
  | Nat.succ n, acc, c :: t =>
    match digitVal c with
    | some d => readDigitsAux n (acc * 10 + d) t
    | none => none

/-- Require a literal character at the head of the input. -/
def expectCh (c : Char) : List Char → Option (List Char)
  | [] => none
  | a :: t => if a == c then some t else none

/-- Gregorian leap-year rule. -/
def isLeap (y : Nat) : Bool :=
  y % 4 == 0 && (y % 100 != 0 || y % 400 == 0)

/-- Days in a month of a given year. -/
def daysInMonth (y m : Nat) : Nat :=
  if m == 2 then (if isLeap y then 29 else 28)
  else if m == 4 || m == 6 || m == 9 || m == 11 then 30
  else 31

/-- Days since 1970-01-01 of a civil date (Hinnant's algorithm, floored
division throughout). -/
def daysFromCivil (y m d : Int) : Int :=
  let y2 : Int := if m ≤ 2 then y - 1 else y
  let era : Int := Int.fdiv y2 400
  let yoe : Int := y2 - era * 400
  let mp : Int := if m > 2 then m - 3 else m + 9
  let doy : Int := Int.fdiv (153 * mp + 2) 5 + d - 1
  let doe : Int := yoe * 365 + Int.fdiv yoe 4 - Int.fdiv yoe 100 + doy
  era * 146097 + doe - 719468

/-- Microseconds since the epoch of a validated civil datetime. -/
def epochUs (y m d h mi s frac : Nat) : Int :=
  daysFromCivil (Int.ofNat y) (Int.ofNat m) (Int.ofNat d) * usPerDay
    + Int.ofNat ((h * 3600 + mi * 60 + s) * 1000000 + frac)

/-- Read an optional fractional-second part `.ffffff` (1–6 digits, `.` or `,`
separator as in CPython), scaled to microseconds. -/
def readFraction : List Char → Option (Nat × List Char)
  | [] => some (0, [])
  | c :: t =>
    if c == '.' || c == ',' then
      match t with
      | [] => none
      | d1 :: t1 =>
        match digitVal d1 with
        | none => none
        | some v1 =>
          let rec go (acc : Nat) (count : Nat) : List Char → Nat × List Char
            | [] => (acc, [])
            | c2 :: t2 =>
              if count < 6 then
                match digitVal c2 with
                | some v2 => go (acc * 10 + v2) (count + 1) t2
                | none => (acc, c2 :: t2)
              else (acc, c2 :: t2)
          let (v, rest) := go v1 1 t1
          let ndigits := (1 + t1.length) - rest.length
          if ndigits ≤ 6 then some (v * 10 ^ (6 - ndigits), rest) else none
    else some (0, c :: t)

/-- Read the time-of-day part `HH[:MM[:SS[.ffffff]]]`, returning
(hour, minute, second, microsecond, rest). -/
def readTime (cs : List Char) : Option (Nat × Nat × Nat × Nat × List Char) := do
  let (h, r1) ← readDigitsAux 2 0 cs
  match expectCh ':' r1 with
  | none => do
    let (frac, r2) ← readFraction r1
    pure (h, 0, 0, frac, r2)
  | some r2 => do
    let (mi, r3) ← readDigitsAux 2 0 r2
    match expectCh ':' r3 with
    | none => do
      let (frac, r4) ← readFraction r3
      pure (h, mi, 0, frac, r4)
    | some r4 => do
      let (s, r5) ← readDigitsAux 2 0 r4
      let (frac, r6) ← readFraction r5
      pure (h, mi, s, frac, r6)

/-- Parse a full (naive) ISO datetime string to microseconds since the epoch.
Returns `none` on any malformed or out-of-range component, as
`datetime.fromisoformat` raises `ValueError` there. -/
def parseIsoDatetime (cs : List Char) : Option Int := do
  let (y, r1) ← readDigitsAux 4 0 cs
  let r2 ← expectCh '-' r1
  let (m, r3) ← readDigitsAux 2 0 r2
  let r4 ← expectCh '-' r3
  let (d, r5) ← readDigitsAux 2 0 r4
  if !(1 ≤ y && 1 ≤ m && m ≤ 12 && 1 ≤ d && d ≤ daysInMonth y m) then
    none
  else
    match r5 with
    | [] => pure (epochUs y m d 0 0 0 0)
    | _ :: r6 => do
      -- any single separator character, as in CPython
      let (h, mi, s, frac, rest) ← readTime r6
      if rest.isEmpty && h ≤ 23 && mi ≤ 59 && s ≤ 59 then
        pure (epochUs y m d h mi s frac)
      else
        none

/-- Embedding of the date-parsing step of `find_target_scenes`
(`sar_pipeline.py` lines 226–240): a scene's `acquisition_date` string is
considered only when it contains `'T'`; then `Z` is rewritten to `+00:00`,
a `+00:00` marker is stripped, and the remainder goes to `fromisoformat`.
Any parse failure is caught and the scene is skipped (`none`). -/
def parse_acquisition_date (s : String) : Option Int :=
  let cs := s.data
  if containsCharL 'T' cs then
    let cs1 := replaceAllL ['Z'] "+00:00".data cs
    if subL "+00:00".data cs1 then
      parseIsoDatetime (replaceAllL "+00:00".data [] cs1)
    else
      parseIsoDatetime cs1
  else
    none

/-! ### Scene records and the scene selector (`sar_pipeline.py` 216–271) -/

/-- A normalized search hit, restricted to the fields the selection,
download and summary logic reads (`granule_name`, `acquisition_date`,
`platform`, `url`).  The remaining numeric metadata of the Python dict is
never consulted by the code under verification. -/
structure SceneRecord where
  granule_name : String
  acquisition_date : String
  platform : String := "SENTINEL-1"
  url : String := ""
  deriving DecidableEq, Repr

/-- The `scenes_with_dates` list built by the loop at lines 226–240: each
record paired with its parsed acquisition datetime, parse failures dropped. -/
def scenes_with_dates (asf_results : List SceneRecord) : List (SceneRecord × Int) :=
  asf_results.filterMap fun s =>
    (parse_acquisition_date s.acquisition_date).map fun d => (s, d)

/-- The ordering used by `scenes_with_dates.sort(key=lambda x: x[1],
reverse=True)`: acquisition datetime descending. -/
def dateGe (a b : SceneRecord × Int) : Prop := b.2 ≤ a.2

instance : DecidableRel dateGe := fun a b => inferInstanceAs (Decidable (b.2 ≤ a.2))

instance : IsTotal (SceneRecord × Int) dateGe :=
  ⟨fun a b => Int.le_total b.2 a.2⟩

instance : IsTrans (SceneRecord × Int) dateGe :=
  ⟨fun _ _ _ hab hbc => le_trans hbc hab⟩

/-- Python's `list.sort` is stable; a stable sort is determined uniquely by
the comparator, so the stable insertion sort is an exact model of the
in-place sort at line 247. -/
def sortScenes (l : List (SceneRecord × Int)) : List (SceneRecord × Int) :=
  List.insertionSort dateGe l

/-- Python `min(iterable, key=key)`: fold keeping the current minimum,
replacing it only on a strictly smaller key, so the first minimum in
iteration order wins. -/
def pyMinFold {α : Type} (key : α → Int) : α → List α → α
  | a, [] => a
  | a, b :: t => pyMinFold key (if key b < key a then b else a) t

/-- `target_date = current_time - timedelta(days=days_back)` (line 254). -/
def targetOf (days_back now : Int) : Int := now - days_back * usPerDay

/-- `abs((x[1] - target_date).days)` (lines 258–259): `timedelta.days` is
floored division of the signed duration by one day. -/
def dayDiff (target : Int) (x : SceneRecord × Int) : Int :=
  |Int.fdiv (x.2 - target) usPerDay|

/-- `scenes_with_dates[0]` after the descending sort (line 250). -/
def mostRecentPick (asf_results : List SceneRecord) : Option (SceneRecord × Int) :=
  (sortScenes (scenes_with_dates asf_results)).head?

/-- `min(scenes_with_dates, key=lambda x: abs((x[1] - target_date).days))`
(line 258).  Note the list iterated here is the one sorted in place at line
247, so ties on the day difference resolve to the sorted order. -/
def closestPick (asf_results : List SceneRecord) (days_back now : Int) :
    Option (SceneRecord × Int) :=
  match sortScenes (scenes_with_dates asf_results) with
  | [] => none
  | a :: t => some (pyMinFold (dayDiff (targetOf days_back now)) a t)

/-- Embedding of `find_target_scenes` (lines 216–271).  `now` stands for the
`datetime.now()` read once at line 224. -/
def find_target_scenes (asf_results : List SceneRecord) (days_back now : Int) :
    List SceneRecord :=
  if asf_results.isEmpty then []
  else
    match mostRecentPick asf_results, closestPick asf_results days_back now with
    | some most_recent, some closest =>
      if closest.1.granule_name ≠ most_recent.1.granule_name then
        [most_recent.1, closest.1]
      else
        [most_recent.1]
    | _, _ => []

/-! ### Provider search adapter (`sar_pipeline.py` 143–214)

The live `asf.search` call is an external capability; its outcome is an
`Except` value fed to the adapter: `Except.error` models the provider query
raising, `Except.ok` a list of raw result-property records. -/

/-- The raw provider properties the normalization loop reads.  `propFails`
models an exception raised while reading a record's properties (caught at
lines 198–208, which substitute a sentinel entry). -/
structure RawProps where
  sceneName : Option String := none
  fileName : Option String := none
  granuleName : Option String := none
  productName : Option String := none
  startTime : Option String := none
  acquisitionDate : Option String := none
  sensingTime : Option String := none
  platform : Option String := none
  url : Option String := none
  propFails : Bool := false
  deriving DecidableEq, Repr

/-- Python's `a or b` over possibly-missing strings: a present but empty
string is falsy and falls through to the next alternative. -/
def pyOrStr (a : Option String) (b : Option String) : Option String :=
  match a with
  | some s => if s.isEmpty then b else some s
  | none => b

/-- Normalization of one raw result (lines 168–208): fallback chains for the
granule name and acquisition date, `dict.get` defaults for the rest; a
property-reading exception yields the sentinel entry of lines 202–208. -/
def normalize_result (r : RawProps) : SceneRecord :=
  if r.propFails then
    { granule_name := "parsing_error", acquisition_date := "unknown",
      platform := "SENTINEL-1", url := "" }
  else
    { granule_name :=
        (pyOrStr r.sceneName (pyOrStr r.fileName
          (pyOrStr r.granuleName r.productName))).getD "unknown_granule"
      acquisition_date :=
        (pyOrStr r.startTime (pyOrStr r.acquisitionDate r.sensingTime)).getD
          "unknown_date"
      platform := r.platform.getD "SENTINEL-1"
      url := r.url.getD "" }

/-- Embedding of `search_asf_data` (lines 143–214): the whole body sits in a
`try`; any provider query error is caught at line 212 and an empty list is
returned, so no exception crosses the adapter boundary. -/
def search_asf_data (provider : Except String (List RawProps)) : List SceneRecord :=
  match provider with
  | Except.error _ => []
  | Except.ok results => results.map normalize_result

/-! ### Run summary (`sar_pipeline.py` 378–454) -/

/-- The `asf_results`/`selected_scenes` portion of the run summary dict built
at lines 424–442.  `sentinel_hub` counts are independent of these claims. -/
structure RunSummary where
  found : Nat
  selected : Nat
  downloaded : Nat
  selected_scenes : List String
  deriving DecidableEq, Repr

/-- Embedding of the summary aggregation of `run_pipeline` (lines 402–442):
`found = len(asf_results)`, `selected = len(target_scenes)`,
`downloaded = sum(asf_downloads)` with one boolean per selected scene
(`download_ok` models the I/O outcome of `download_asf_data`), and
`selected_scenes` the granule names of the selected scenes in order. -/
def run_pipeline_summary (asf_results : List SceneRecord) (days_back now : Int)
    (download_ok : SceneRecord → Bool) : RunSummary :=
  let target_scenes := find_target_scenes asf_results days_back now
  { found := asf_results.length
    selected := target_scenes.length
    downloaded := (target_scenes.map download_ok).count true
    selected_scenes := target_scenes.map fun s => s.granule_name }

/-! ### SAFE verification (`downloader.py` 246–304) -/

/-- Does a filename end in `.tiff` (the `glob("*.tiff")` pattern)? -/
def hasTiffSuffix (s : String) : Bool := endsWithL ".tiff".data s.data

/-- The polarization tag extracted from one measurement filename by the
`elif` chain at lines 287–294: the filename is lowercased and the four tags
are tried as substrings in the order vv, vh, hh, hv. -/
def polarTag (f : String) : Option String :=
  let lf := lowerL f.data
  if subL "vv".data lf then some "VV"
  else if subL "vh".data lf then some "VH"
  else if subL "hh".data lf then some "HH"
  else if subL "hv".data lf then some "HV"
  else none

/-- The on-disk state of an extracted product directory as read by the
verifier: names of existing subdirectories, of top-level files, and of the
files inside `measurement/`. -/
structure SafeDir where
  subdirs : List String
  topFiles : List String
  measurementFiles : List String
  deriving DecidableEq, Repr

/-- The polarization set collected at lines 277–294 (a Python `set`; only
its non-emptiness is consumed, so a list of found tags is an exact model). -/
def polarizationsOf (p : SafeDir) : List String :=
  (p.measurementFiles.filter hasTiffSuffix).filterMap polarTag

/-- Embedding of `verify_safe_comprehensive` (lines 246–304), preserving the
check order: the three required directories (with the `.tiff` content check
inside the `measurement` iteration), then `manifest.safe`, then
`len(polarizations) > 0`. -/
def verify_safe_comprehensive (p : SafeDir) : Bool :=
  if !(p.subdirs.contains "annotation") then false
  else if !(p.subdirs.contains "measurement") then false
  else if (p.measurementFiles.filter hasTiffSuffix).isEmpty then false
  else if !(p.subdirs.contains "preview") then false
  else if !(p.topFiles.contains "manifest.safe") then false
  else !(polarizationsOf p).isEmpty

/-! ### Archive extraction (`downloader.py` 203–244)

The zip archive is modelled by its member-name list; whether the final
verification succeeds is an oracle (`verifyOk`), since it reads the
filesystem after extraction.  The result carries the returned product path
(`none` on failure) together with the list of members actually extracted. -/

/-- Is a zip member name a product-root entry (`name.endswith('.SAFE/')`,
line 210)? -/
def isSafeEntryName (n : String) : Bool := endsWithL ".SAFE/".data n.data

/-- Embedding of `extract_safe_optimized` (lines 203–244): collect the
members ending in `.SAFE/`; if none, return failure extracting nothing;
otherwise take the first, strip trailing slashes, extract every member
whose name starts with it, and return the product path when verification
succeeds. -/
def extract_safe_optimized (zipNames : List String) (verifyOk : Bool) :
    Option String × List String :=
  match zipNames.filter isSafeEntryName with
  | [] => (none, [])
  | e :: _ =>
    let safe_name := String.mk (rstripSlashL e.data)
    let members := zipNames.filter fun m => startsWithL safe_name.data m.data
    (if verifyOk then some safe_name else none, members)

/-! ### Per-scene acquisition (`downloader.py` 130–201) -/

/-- Observable side effects of one `download_scene_with_progress` call. -/
inductive DlEffect where
  | network
  | extraction
  deriving DecidableEq, Repr

/-- The environment one acquisition call runs against: the two on-disk
checkpoints, and oracles for the outcome of the network transfer and of
`extract_safe_optimized`. -/
structure DlEnv where
  safeExists : Bool
  zipExists : Bool
  downloadRaises : Bool
  downloadCreatesZip : Bool
  extractResult : Option String
  deriving DecidableEq, Repr

/-- `self.safe_dir / f"{granule_name}.SAFE"` (line 142). -/
def safePathOf (granule_name : String) : String :=
  "safe_extracted/" ++ granule_name ++ ".SAFE"

/-- Embedding of `download_scene_with_progress` (lines 130–201) as the pair
(effects performed, returned path): an existing SAFE directory returns
immediately (lines 142–145); an existing zip skips the transfer and goes
straight to extraction (lines 148–151); otherwise the transfer runs and, if
the zip materialised, extraction follows (lines 153–201). -/
def download_scene_with_progress (granule_name : String) (env : DlEnv) :
    List DlEffect × Option String :=
  if env.safeExists then ([], some (safePathOf granule_name))
  else if env.zipExists then ([DlEffect.extraction], env.extractResult)
  else if env.downloadRaises then ([DlEffect.network], none)
  else if env.downloadCreatesZip then
    ([DlEffect.network, DlEffect.extraction], env.extractResult)
  else ([DlEffect.network], none)

/-! ### Scheduler (`sar_pipeline.py` 456–469)

The `while True` body of `scheduled_run` has no `break` or `return`; each
iteration runs the pipeline inside `try`, sleeps `interval_hours * 3600`
seconds on success and, on any caught exception, logs and sleeps a fixed
3600 seconds.  The body is embedded as a function from the iteration's run
outcome to `Option Nat`: `some s` means "slept `s` seconds and continued to
the next iteration", `none` would mean the loop terminated — which the body
never produces. -/

/-- One iteration of the scheduler loop (lines 461–467). -/
def scheduled_run_body (interval_hours : Nat) (run_result : Except String Unit) :
    Option Nat :=
  match run_result with
  | Except.ok _ => some (interval_hours * 3600)
  | Except.error _ => some 3600

/-- The infinite execution: iteration `n` of the loop, given the per-run
outcomes `runs`.  Total in `n`: every iteration occurs. -/
def scheduled_trace (interval_hours : Nat) (runs : Nat → Except String Unit)
    (n : Nat) : Option Nat :=
  scheduled_run_body interval_hours (runs n)

/-! ### Helper lemmas -/

theorem mem_scenes_with_dates {rs : List SceneRecord} {s : SceneRecord} {d : Int} :
    (s, d) ∈ scenes_with_dates rs ↔
      s ∈ rs ∧ parse_acquisition_date s.acquisition_date = some d := by
  constructor
  · intro h
    obtain ⟨a, ha, hfa⟩ := List.mem_filterMap.mp h
    obtain ⟨v, hv, hav⟩ := Option.map_eq_some'.mp hfa
    have h1 : a = s := congrArg Prod.fst hav
    have h2 : v = d := congrArg Prod.snd hav
    subst h1; subst h2
    exact ⟨ha, hv⟩
  · intro ⟨hs, hp⟩
    exact List.mem_filterMap.mpr ⟨s, hs, by rw [hp]; rfl⟩

theorem sortScenes_perm (l : List (SceneRecord × Int)) :
    List.Perm (sortScenes l) l :=
  List.perm_insertionSort dateGe l

theorem sortScenes_sorted (l : List (SceneRecord × Int)) :
    List.Sorted dateGe (sortScenes l) :=
  List.sorted_insertionSort dateGe l

theorem pyMinFold_mem {α : Type} (key : α → Int) (a : α) (t : List α) :
    pyMinFold key a t = a ∨ pyMinFold key a t ∈ t := by
  induction t generalizing a with
  | nil => exact Or.inl rfl
  | cons b t' ih =>
    simp only [pyMinFold]
    by_cases hb : key b < key a
    · simp only [if_pos hb]
      rcases ih b with h | h
      · exact Or.inr (List.mem_cons.mpr (Or.inl h))
      · exact Or.inr (List.mem_cons.mpr (Or.inr h))
    · simp only [if_neg hb]
      rcases ih a with h | h
      · exact Or.inl h
      · exact Or.inr (List.mem_cons.mpr (Or.inr h))

theorem pyMinFold_le {α : Type} (key : α → Int) (a : α) (t : List α) :
    key (pyMinFold key a t) ≤ key a ∧
      ∀ x ∈ t, key (pyMinFold key a t) ≤ key x := by
  induction t generalizing a with
  | nil => exact ⟨le_refl _, by intro x hx; cases hx⟩
  | cons b t' ih =>
    simp only [pyMinFold]
    by_cases hb : key b < key a
    · simp only [if_pos hb]
      obtain ⟨h1, h2⟩ := ih b
      refine ⟨le_of_lt (lt_of_le_of_lt h1 hb), ?_⟩
      intro x hx
      rcases List.mem_cons.mp hx with rfl | hx
      · exact h1
      · exact h2 x hx
    · simp only [if_neg hb]
      obtain ⟨h1, h2⟩ := ih a
      refine ⟨h1, ?_⟩
      intro x hx
      rcases List.mem_cons.mp hx with rfl | hx
      · exact le_trans h1 (le_of_not_lt hb)
      · exact h2 x hx

theorem pyMinFold_first {α : Type} (key : α → Int) (a : α) (t : List α) :
    ∃ l1 l2, a :: t = l1 ++ pyMinFold key a t :: l2 ∧
      ∀ y ∈ l1, key (pyMinFold key a t) < key y := by
  induction t generalizing a with
  | nil => exact ⟨[], [], rfl, by intro y hy; cases hy⟩
  | cons b t' ih =>
    simp only [pyMinFold]
    by_cases hb : key b < key a
    · simp only [if_pos hb]
      obtain ⟨l1, l2, hsplit, hlt⟩ := ih b
      refine ⟨a :: l1, l2, by rw [List.cons_append, ← hsplit], ?_⟩
      intro y hy
      rcases List.mem_cons.mp hy with rfl | hy
      · exact lt_of_le_of_lt (pyMinFold_le key b t').1 hb
      · exact hlt y hy
    · simp only [if_neg hb]
      obtain ⟨l1, l2, hsplit, hlt⟩ := ih a
      cases l1 with
      | nil =>
        have hm : pyMinFold key a t' = a := by
          have h := hsplit
          simp only [List.nil_append, List.cons.injEq] at h
          exact h.1.symm
        refine ⟨[], b :: t', ?_, by intro y hy; cases hy⟩
        simp [hm]
      | cons x l1' =>
        have hx : x = a := by
          have h := hsplit
          simp only [List.cons_append, List.cons.injEq] at h
          exact h.1.symm
        have ht' : t' = l1' ++ pyMinFold key a t' :: l2 := by
          have h := hsplit
          simp only [List.cons_append, List.cons.injEq] at h
          exact h.2
        have hma : key (pyMinFold key a t') < key a := by
          have h := hlt x (List.mem_cons_self x l1')
          rwa [hx] at h
        refine ⟨a :: b :: l1', l2, ?_, ?_⟩
        · show a :: b :: t' = a :: b :: l1' ++ pyMinFold key a t' :: l2
          conv_lhs => rw [ht']
          rfl
        intro y hy
        rcases List.mem_cons.mp hy with rfl | hy
        · exact hma
        rcases List.mem_cons.mp hy with rfl | hy
        · exact lt_of_lt_of_le hma (le_of_not_lt hb)
        · exact hlt y (List.mem_cons_of_mem x hy)

/-- Structural case analysis of `find_target_scenes`: either there are no
valid-date scenes and the result is empty, or the sorted list is non-empty,
the two picks are its head and its Python-`min`, and the result is one or
both of them depending on the granule-name comparison. -/
theorem fts_shape (rs : List SceneRecord) (db now : Int) :
    (scenes_with_dates rs = [] ∧ find_target_scenes rs db now = []) ∨
    (∃ mr rest, sortScenes (scenes_with_dates rs) = mr :: rest ∧
      mostRecentPick rs = some mr ∧
      closestPick rs db now = some (pyMinFold (dayDiff (targetOf db now)) mr rest) ∧
      ((pyMinFold (dayDiff (targetOf db now)) mr rest).1.granule_name =
          mr.1.granule_name ∧
        find_target_scenes rs db now = [mr.1] ∨
       (pyMinFold (dayDiff (targetOf db now)) mr rest).1.granule_name ≠
          mr.1.granule_name ∧
        find_target_scenes rs db now =
          [mr.1, (pyMinFold (dayDiff (targetOf db now)) mr rest).1])) := by
  by_cases hswd : scenes_with_dates rs = []
  · left
    refine ⟨hswd, ?_⟩
    have hmr : mostRecentPick rs = none := by
      rw [mostRecentPick, hswd]; rfl
    simp only [find_target_scenes]
    split
    · rfl
    · rw [hmr]
  · right
    have hrs : rs ≠ [] := by
      intro h
      exact hswd (by rw [h]; rfl)
    have hsne : sortScenes (scenes_with_dates rs) ≠ [] := by
      intro h
      exact hswd (List.eq_nil_of_length_eq_zero
        ((sortScenes_perm (scenes_with_dates rs)).symm.length_eq.trans
          (by rw [h]; rfl)))
    obtain ⟨mr, rest, hsort⟩ : ∃ mr rest,
        sortScenes (scenes_with_dates rs) = mr :: rest := by
      cases h : sortScenes (scenes_with_dates rs) with
      | nil => exact absurd h hsne
      | cons a l => exact ⟨a, l, rfl⟩
    have hmr : mostRecentPick rs = some mr := by
      rw [mostRecentPick, hsort]; rfl
    have hcl : closestPick rs db now =
        some (pyMinFold (dayDiff (targetOf db now)) mr rest) := by
      simp only [closestPick, hsort]
    have hempty : rs.isEmpty = false := by
      cases rs with
      | nil => exact absurd rfl hrs
      | cons a l => rfl
    refine ⟨mr, rest, hsort, hmr, hcl, ?_⟩
    by_cases hg : (pyMinFold (dayDiff (targetOf db now)) mr rest).1.granule_name =
        mr.1.granule_name
    · left
      refine ⟨hg, ?_⟩
      simp only [find_target_scenes, hempty, hmr, hcl, Bool.false_eq_true,
        if_false, ne_eq, hg, not_true_eq_false]
    · right
      refine ⟨hg, ?_⟩
      simp only [find_target_scenes, hempty, hmr, hcl, Bool.false_eq_true,
        if_false, ne_eq, hg, not_false_eq_true, if_true]

/-! ### Concrete scenes used by counterexamples and witnesses -/

/-- Scene acquired on day 11 (1970-01-12). -/
def ceA : SceneRecord :=
  { granule_name := "A", acquisition_date := "1970-01-12T00:00:00" }

/-- Scene acquired on day 15 (1970-01-16). -/
def ceB : SceneRecord :=
  { granule_name := "B", acquisition_date := "1970-01-16T00:00:00" }

/-- A fixed "now": midnight of day 16. With `days_back = 3` the target is
day 13, so `ceA` (day 11) and `ceB` (day 15) are both 2 days off. -/
def ceNow : Int := 16 * usPerDay

/-! ### Claims about the scene selector -/

/-- C1: for every non-empty record list with at least one record whose
acquisition time parses, `find_target_scenes` returns 1 or 2 records, each
drawn from the input; its first element is a valid-date record attaining the
maximum acquisition time, and the result has length 2 exactly when the
closest-to-target pick's granule name differs from the most-recent pick's. -/
theorem C1_find_target_scenes_selection (rs : List SceneRecord) (db now : Int)
    (_hne : rs ≠ []) (hvalid : scenes_with_dates rs ≠ []) :
    ((find_target_scenes rs db now).length = 1 ∨
      (find_target_scenes rs db now).length = 2) ∧
    (∀ r ∈ find_target_scenes rs db now, r ∈ rs) ∧
    (∃ mr, (find_target_scenes rs db now).head? = some mr.1 ∧
      mr ∈ scenes_with_dates rs ∧
      ∀ x ∈ scenes_with_dates rs, x.2 ≤ mr.2) ∧
    (∃ mr c, mostRecentPick rs = some mr ∧ closestPick rs db now = some c ∧
      ((find_target_scenes rs db now).length = 2 ↔
        c.1.granule_name ≠ mr.1.granule_name)) := by
  rcases fts_shape rs db now with ⟨h, _⟩ | ⟨mr, rest, hsort, hmr, hcl, hcase⟩
  · exact absurd h hvalid
  have hmem_sorted : ∀ x ∈ sortScenes (scenes_with_dates rs),
      x ∈ scenes_with_dates rs :=
    fun x hx => (sortScenes_perm (scenes_with_dates rs)).mem_iff.mp hx
  have hmr_sorted : mr ∈ sortScenes (scenes_with_dates rs) := by
    rw [hsort]; exact List.mem_cons_self mr rest
  have hmr_swd : mr ∈ scenes_with_dates rs := hmem_sorted mr hmr_sorted
  have hmr_rs : mr.1 ∈ rs := by
    have h := mem_scenes_with_dates.mp (show (mr.1, mr.2) ∈ scenes_with_dates rs from hmr_swd)
    exact h.1
  set c := pyMinFold (dayDiff (targetOf db now)) mr rest with hc
  have hc_sorted : c ∈ sortScenes (scenes_with_dates rs) := by
    rw [hsort]
    rcases pyMinFold_mem (dayDiff (targetOf db now)) mr rest with h | h
    · exact List.mem_cons.mpr (Or.inl h)
    · exact List.mem_cons.mpr (Or.inr h)
  have hc_swd : c ∈ scenes_with_dates rs := hmem_sorted c hc_sorted
  have hc_rs : c.1 ∈ rs := by
    have h := mem_scenes_with_dates.mp (show (c.1, c.2) ∈ scenes_with_dates rs from hc_swd)
    exact h.1
  have hmax : ∀ x ∈ scenes_with_dates rs, x.2 ≤ mr.2 := by
    intro x hx
    have hxs : x ∈ sortScenes (scenes_with_dates rs) :=
      (sortScenes_perm (scenes_with_dates rs)).symm.mem_iff.mp hx
    rw [hsort] at hxs
    rcases List.mem_cons.mp hxs with rfl | hxs
    · exact le_refl _
    · have hsorted := sortScenes_sorted (scenes_with_dates rs)
      rw [hsort] at hsorted
      exact (List.sorted_cons.mp hsorted).1 x hxs
  rcases hcase with ⟨hg, hout⟩ | ⟨hg, hout⟩
  · refine ⟨Or.inl (by rw [hout]; rfl), ?_, ⟨mr, ?_, hmr_swd, hmax⟩,
      ⟨mr, c, hmr, hcl, ?_⟩⟩
    · intro r hr
      rw [hout] at hr
      rcases List.mem_cons.mp hr with rfl | hr
      · exact hmr_rs
      · cases hr
    · rw [hout]; rfl
    · rw [hout]
      constructor
      · intro h; cases h
      · intro h; exact absurd hg h
  · refine ⟨Or.inr (by rw [hout]; rfl), ?_, ⟨mr, ?_, hmr_swd, hmax⟩,
      ⟨mr, c, hmr, hcl, ?_⟩⟩
    · intro r hr
      rw [hout] at hr
      rcases List.mem_cons.mp hr with rfl | hr
      · exact hmr_rs
      rcases List.mem_cons.mp hr with rfl | hr
      · exact hc_rs
      · cases hr
    · rw [hout]; rfl
    · rw [hout]
      exact ⟨fun _ => hg, fun _ => rfl⟩

/-- C1 witness: the theorem applied to the concrete two-scene input. -/
theorem C1_find_target_scenes_selection_witness :
    ([ceA, ceB] ≠ ([] : List SceneRecord)) ∧
    scenes_with_dates [ceA, ceB] ≠ [] ∧
    (((find_target_scenes [ceA, ceB] 3 ceNow).length = 1 ∨
      (find_target_scenes [ceA, ceB] 3 ceNow).length = 2) ∧
    (∀ r ∈ find_target_scenes [ceA, ceB] 3 ceNow, r ∈ [ceA, ceB]) ∧
    (∃ mr, (find_target_scenes [ceA, ceB] 3 ceNow).head? = some mr.1 ∧
      mr ∈ scenes_with_dates [ceA, ceB] ∧
      ∀ x ∈ scenes_with_dates [ceA, ceB], x.2 ≤ mr.2) ∧
    (∃ mr c, mostRecentPick [ceA, ceB] = some mr ∧
      closestPick [ceA, ceB] 3 ceNow = some c ∧
      ((find_target_scenes [ceA, ceB] 3 ceNow).length = 2 ↔
        c.1.granule_name ≠ mr.1.granule_name))) :=
  ⟨by decide, by decide,
    C1_find_target_scenes_selection [ceA, ceB] 3 ceNow (by decide) (by decide)⟩

/-- C2 counterexample: with `now` = day 16 and `days_back = 3` (target day
13), `ceA` (day 11, input position 0) and `ceB` (day 15, input position 1)
are both exactly 2 days from the target.  The claim's input-order tie-break
would pick `ceA`, yielding `[ceB, ceA]`; the code's `min` runs over the list
already sorted date-descending at line 247, so it picks `ceB` and the
selection collapses to `[ceB]`. -/
theorem C2_counterexample :
    scenes_with_dates [ceA, ceB] = [(ceA, 11 * usPerDay), (ceB, 15 * usPerDay)] ∧
    dayDiff (targetOf 3 ceNow) (ceA, 11 * usPerDay) = 2 ∧
    dayDiff (targetOf 3 ceNow) (ceB, 15 * usPerDay) = 2 ∧
    closestPick [ceA, ceB] 3 ceNow = some (ceB, 15 * usPerDay) ∧
    find_target_scenes [ceA, ceB] 3 ceNow = [ceB] := by
  refine ⟨by decide, by decide, by decide, by decide, by decide⟩

/-- C2 (amended): the closest-to-target pick is the first record attaining
the minimal absolute day-difference in the date-sorted (descending) order of
line 247 — not in the original input order: every record strictly before the
pick in the sorted list has a strictly larger day-difference, and the pick's
day-difference is minimal over all valid-date records. -/
theorem C2_closest_pick_first_min_in_sorted_order (rs : List SceneRecord)
    (db now : Int) (mr : SceneRecord × Int) (rest : List (SceneRecord × Int))
    (hsort : sortScenes (scenes_with_dates rs) = mr :: rest) :
    ∃ c l1 l2, closestPick rs db now = some c ∧
      mr :: rest = l1 ++ c :: l2 ∧
      (∀ y ∈ l1, dayDiff (targetOf db now) c < dayDiff (targetOf db now) y) ∧
      ∀ y ∈ mr :: rest, dayDiff (targetOf db now) c ≤ dayDiff (targetOf db now) y := by
  have hcl : closestPick rs db now =
      some (pyMinFold (dayDiff (targetOf db now)) mr rest) := by
    simp only [closestPick, hsort]
  obtain ⟨l1, l2, hsplit, hlt⟩ := pyMinFold_first (dayDiff (targetOf db now)) mr rest
  refine ⟨_, l1, l2, hcl, hsplit, hlt, ?_⟩
  intro y hy
  rcases List.mem_cons.mp hy with h | h
  · rw [h]
    exact (pyMinFold_le (dayDiff (targetOf db now)) mr rest).1
  · exact (pyMinFold_le (dayDiff (targetOf db now)) mr rest).2 y h

/-- C2 witness: the amended theorem at the concrete tie input; the sorted
list is `[ceB, ceA]` and the pick is its head `ceB`. -/
theorem C2_closest_pick_witness :
    ∃ c l1 l2, closestPick [ceA, ceB] 3 ceNow = some c ∧
      (ceB, 15 * usPerDay) :: [(ceA, 11 * usPerDay)] = l1 ++ c :: l2 ∧
      (∀ y ∈ l1, dayDiff (targetOf 3 ceNow) c < dayDiff (targetOf 3 ceNow) y) ∧
      ∀ y ∈ (ceB, 15 * usPerDay) :: [(ceA, 11 * usPerDay)],
        dayDiff (targetOf 3 ceNow) c ≤ dayDiff (targetOf 3 ceNow) y :=
  C2_closest_pick_first_min_in_sorted_order [ceA, ceB] 3 ceNow
    (ceB, 15 * usPerDay) [(ceA, 11 * usPerDay)] (by decide)

/-- C3: scene selection is deterministic — a pure function of the record
list, the lookback, and the current time (`datetime.now()` is read once and
enters only through `now`). -/
theorem C3_find_target_scenes_deterministic (rs1 rs2 : List SceneRecord)
    (db1 db2 now1 now2 : Int)
    (h1 : rs1 = rs2) (h2 : db1 = db2) (h3 : now1 = now2) :
    find_target_scenes rs1 db1 now1 = find_target_scenes rs2 db2 now2 := by
  rw [h1, h2, h3]

/-- C3 witness: determinism at a concrete invocation. -/
theorem C3_find_target_scenes_deterministic_witness :
    find_target_scenes [ceA, ceB] 3 ceNow = find_target_scenes [ceA, ceB] 3 ceNow :=
  C3_find_target_scenes_deterministic [ceA, ceB] [ceA, ceB] 3 3 ceNow ceNow
    rfl rfl rfl

/-- C9: every run summary satisfies `downloaded ≤ selected ≤ min(found, 2)`,
`selected_scenes` has exactly `selected` entries, and the selected granule
names are pairwise distinct. -/
theorem C9_run_summary_invariants (rs : List SceneRecord) (db now : Int)
    (ok : SceneRecord → Bool) :
    (run_pipeline_summary rs db now ok).downloaded ≤
      (run_pipeline_summary rs db now ok).selected ∧
    (run_pipeline_summary rs db now ok).selected ≤
      min (run_pipeline_summary rs db now ok).found 2 ∧
    (run_pipeline_summary rs db now ok).selected_scenes.length =
      (run_pipeline_summary rs db now ok).selected ∧
    (run_pipeline_summary rs db now ok).selected_scenes.Nodup := by
  simp only [run_pipeline_summary]
  refine ⟨?_, ?_, by rw [List.length_map], ?_⟩
  · calc ((find_target_scenes rs db now).map ok).count true
        ≤ ((find_target_scenes rs db now).map ok).length := List.count_le_length _ _
      _ = (find_target_scenes rs db now).length := List.length_map _ _
  · rcases fts_shape rs db now with ⟨hswd, hout⟩ | ⟨mr, rest, hsort, _, _, hcase⟩
    · rw [hout]
      exact le_min (Nat.zero_le _) (Nat.zero_le _)
    · have hswd_len : (scenes_with_dates rs).length ≤ rs.length :=
        List.length_filterMap_le _ _
      have hsort_len : (sortScenes (scenes_with_dates rs)).length =
          (scenes_with_dates rs).length :=
        (sortScenes_perm (scenes_with_dates rs)).length_eq
      rcases hcase with ⟨_, hout⟩ | ⟨hg, hout⟩
      · rw [hout]
        have h1 : 1 ≤ (scenes_with_dates rs).length := by
          rw [← hsort_len, hsort]
          exact Nat.succ_le_succ (Nat.zero_le _)
        simp only [List.length_cons, List.length_nil]
        omega
      · rw [hout]
        have hc_ne : pyMinFold (dayDiff (targetOf db now)) mr rest ≠ mr := by
          intro h
          exact hg (by rw [h])
        have hc_rest : pyMinFold (dayDiff (targetOf db now)) mr rest ∈ rest := by
          rcases pyMinFold_mem (dayDiff (targetOf db now)) mr rest with h | h
          · exact absurd h hc_ne
          · exact h
        have hrest : 1 ≤ rest.length := List.length_pos_of_mem hc_rest
        have h2 : 2 ≤ (scenes_with_dates rs).length := by
          rw [← hsort_len, hsort]
          simpa using Nat.succ_le_succ hrest
        simp only [List.length_cons, List.length_nil]
        omega
  · rcases fts_shape rs db now with ⟨_, hout⟩ | ⟨mr, rest, _, _, _, hcase⟩
    · rw [hout]; exact List.nodup_nil
    rcases hcase with ⟨_, hout⟩ | ⟨hg, hout⟩
    · rw [hout]
      exact List.nodup_singleton _
    · rw [hout]
      refine List.nodup_cons.mpr ⟨?_, List.nodup_singleton _⟩
      intro h
      rcases List.mem_cons.mp h with h | h
      · exact hg h.symm
      · cases h

/-- C10: a record whose `acquisition_date` string does not contain `'T'` is
excluded from selection as a parse failure — even when the string is a valid
calendar date — because the gate at line 229 never reaches `fromisoformat`;
consequently every selected record's date string contains `'T'`. -/
theorem C10_no_T_means_excluded :
    (∀ s : String, containsCharL 'T' s.data = false →
      parse_acquisition_date s = none) ∧
    (∀ (rs : List SceneRecord) (db now : Int),
      ∀ r ∈ find_target_scenes rs db now,
        containsCharL 'T' r.acquisition_date.data = true) := by
  have hgate : ∀ s : String, containsCharL 'T' s.data = false →
      parse_acquisition_date s = none := by
    intro s hs
    simp only [parse_acquisition_date, hs, Bool.false_eq_true, if_false]
  refine ⟨hgate, ?_⟩
  intro rs db now r hr
  have hswd : ∃ d, (r, d) ∈ scenes_with_dates rs := by
    rcases fts_shape rs db now with ⟨_, hout⟩ | ⟨mr, rest, hsort, _, _, hcase⟩
    · rw [hout] at hr; cases hr
    have hmem : ∀ x ∈ sortScenes (scenes_with_dates rs),
        x ∈ scenes_with_dates rs :=
      fun x hx => (sortScenes_perm (scenes_with_dates rs)).mem_iff.mp hx
    have hmr_swd : mr ∈ scenes_with_dates rs := by
      refine hmem mr ?_
      rw [hsort]; exact List.mem_cons_self mr rest
    have hc_swd : pyMinFold (dayDiff (targetOf db now)) mr rest ∈
        scenes_with_dates rs := by
      refine hmem _ ?_
      rw [hsort]
      rcases pyMinFold_mem (dayDiff (targetOf db now)) mr rest with h | h
      · exact List.mem_cons.mpr (Or.inl h)
      · exact List.mem_cons.mpr (Or.inr h)
    rcases hcase with ⟨_, hout⟩ | ⟨_, hout⟩
    · rw [hout] at hr
      rcases List.mem_cons.mp hr with rfl | hr
      · exact ⟨mr.2, hmr_swd⟩
      · cases hr
    · rw [hout] at hr
      rcases List.mem_cons.mp hr with rfl | hr
      · exact ⟨mr.2, hmr_swd⟩
      rcases List.mem_cons.mp hr with rfl | hr
      · exact ⟨(pyMinFold (dayDiff (targetOf db now)) mr rest).2, hc_swd⟩
      · cases hr
  obtain ⟨d, hd⟩ := hswd
  have hp := (mem_scenes_with_dates.mp hd).2
  cases hT : containsCharL 'T' r.acquisition_date.data with
  | false => rw [hgate r.acquisition_date hT] at hp; cases hp
  | true => rfl

/-- C10 witness: the date-only string "2025-07-14" is a valid calendar date
(the ISO parser accepts it, day 20283 since the epoch) yet the gate rejects
it, and on a mixed input only the 'T'-bearing records get selected. -/
theorem C10_no_T_means_excluded_witness :
    parse_acquisition_date "2025-07-14" = none ∧
    parseIsoDatetime "2025-07-14".data = some (20283 * usPerDay) :=
  ⟨C10_no_T_means_excluded.1 "2025-07-14" (by decide), by decide⟩

/-! ### Claims about the downloader, extractor, scheduler and adapter -/

theorem str_contains_iff {l : List String} {a : String} :
    l.contains a = true ↔ a ∈ l :=
  List.elem_iff

theorem polarTag_ne_none_iff (f : String) :
    polarTag f ≠ none ↔
      (subL "vv".data (lowerL f.data) = true ∨
       subL "vh".data (lowerL f.data) = true ∨
       subL "hh".data (lowerL f.data) = true ∨
       subL "hv".data (lowerL f.data) = true) := by
  unfold polarTag
  cases h1 : subL "vv".data (lowerL f.data) <;>
    cases h2 : subL "vh".data (lowerL f.data) <;>
      cases h3 : subL "hh".data (lowerL f.data) <;>
        cases h4 : subL "hv".data (lowerL f.data) <;>
          simp [h1, h2, h3, h4]

theorem verify_eq_conj (p : SafeDir) :
    verify_safe_comprehensive p =
      (p.subdirs.contains "annotation" && p.subdirs.contains "measurement" &&
        !(p.measurementFiles.filter hasTiffSuffix).isEmpty &&
        p.subdirs.contains "preview" && p.topFiles.contains "manifest.safe" &&
        !(polarizationsOf p).isEmpty) := by
  unfold verify_safe_comprehensive
  cases h1 : p.subdirs.contains "annotation" <;>
    cases h2 : p.subdirs.contains "measurement" <;>
      cases h3 : (p.measurementFiles.filter hasTiffSuffix).isEmpty <;>
        cases h4 : p.subdirs.contains "preview" <;>
          cases h5 : p.topFiles.contains "manifest.safe" <;>
            simp [h1, h2, h3, h4, h5]

theorem tiff_filter_ne_iff (p : SafeDir) :
    (p.measurementFiles.filter hasTiffSuffix).isEmpty = false ↔
      ∃ f ∈ p.measurementFiles, hasTiffSuffix f = true := by
  rw [List.isEmpty_eq_false_iff_exists_mem]
  constructor
  · intro ⟨x, hx⟩
    obtain ⟨hx1, hx2⟩ := List.mem_filter.mp hx
    exact ⟨x, hx1, hx2⟩
  · intro ⟨f, hf1, hf2⟩
    exact ⟨f, List.mem_filter.mpr ⟨hf1, hf2⟩⟩

theorem polar_ne_iff (p : SafeDir) :
    (polarizationsOf p).isEmpty = false ↔
      ∃ f ∈ p.measurementFiles, hasTiffSuffix f = true ∧
        (subL "vv".data (lowerL f.data) = true ∨
         subL "vh".data (lowerL f.data) = true ∨
         subL "hh".data (lowerL f.data) = true ∨
         subL "hv".data (lowerL f.data) = true) := by
  rw [List.isEmpty_eq_false_iff_exists_mem]
  unfold polarizationsOf
  constructor
  · intro ⟨x, hx⟩
    obtain ⟨a, ha, hpa⟩ := List.mem_filterMap.mp hx
    obtain ⟨ha1, ha2⟩ := List.mem_filter.mp ha
    refine ⟨a, ha1, ha2, (polarTag_ne_none_iff a).mp ?_⟩
    rw [hpa]
    exact fun h => Option.noConfusion h
  · intro ⟨f, hf1, hf2, hf3⟩
    obtain ⟨x, hx⟩ := Option.ne_none_iff_exists'.mp ((polarTag_ne_none_iff f).mpr hf3)
    exact ⟨x, List.mem_filterMap.mpr ⟨f, List.mem_filter.mpr ⟨hf1, hf2⟩, hx⟩⟩

/-- C4: `verify_safe_comprehensive` succeeds iff the `annotation`,
`measurement` and `preview` subdirectories exist, the measurement directory
holds at least one `.tiff` file, the top-level `manifest.safe` exists, and
at least one measurement `.tiff` filename contains one of the polarization
tags VV, VH, HH, HV (the code lowercases the filename before the substring
match, so the tag match is case-insensitive, and only `*.tiff` files are
scanned for tags).  A product missing any of these is rejected. -/
theorem C4_verify_safe_comprehensive_iff (p : SafeDir) :
    verify_safe_comprehensive p = true ↔
      "annotation" ∈ p.subdirs ∧ "measurement" ∈ p.subdirs ∧
      "preview" ∈ p.subdirs ∧
      (∃ f ∈ p.measurementFiles, hasTiffSuffix f = true) ∧
      "manifest.safe" ∈ p.topFiles ∧
      (∃ f ∈ p.measurementFiles, hasTiffSuffix f = true ∧
        (subL "vv".data (lowerL f.data) = true ∨
         subL "vh".data (lowerL f.data) = true ∨
         subL "hh".data (lowerL f.data) = true ∨
         subL "hv".data (lowerL f.data) = true)) := by
  rw [verify_eq_conj]
  simp only [Bool.and_eq_true, Bool.not_eq_true']
  rw [str_contains_iff, str_contains_iff, str_contains_iff, str_contains_iff,
    tiff_filter_ne_iff, polar_ne_iff]
  constructor
  · rintro ⟨⟨⟨⟨⟨hA, hM⟩, hT⟩, hP⟩, hF⟩, hX⟩
    exact ⟨hA, hM, hP, hT, hF, hX⟩
  · rintro ⟨hA, hM, hP, hT, hF, hX⟩
    exact ⟨⟨⟨⟨⟨hA, hM⟩, hT⟩, hP⟩, hF⟩, hX⟩

/-- C5: per-scene acquisition is idempotent through on-disk checkpoints: if
the verified product directory already exists the call performs no network
transfer and no extraction and returns that path; if only the raw zip
exists, no network transfer happens and the flow goes directly to
extraction. -/
theorem C5_download_idempotent_checkpoints (granule : String) (env : DlEnv) :
    (env.safeExists = true →
      download_scene_with_progress granule env = ([], some (safePathOf granule))) ∧
    (env.safeExists = false → env.zipExists = true →
      (download_scene_with_progress granule env).1 = [DlEffect.extraction] ∧
      DlEffect.network ∉ (download_scene_with_progress granule env).1 ∧
      (download_scene_with_progress granule env).2 = env.extractResult) := by
  constructor
  · intro h
    simp [download_scene_with_progress, h]
  · intro h1 h2
    have hd : download_scene_with_progress granule env =
        ([DlEffect.extraction], env.extractResult) := by
      simp [download_scene_with_progress, h1, h2]
    rw [hd]
    refine ⟨rfl, ?_, rfl⟩
    intro hmem
    rcases List.mem_cons.mp hmem with h | h
    · exact DlEffect.noConfusion h
    · cases h

/-- Environment with the verified product already present. -/
def ceEnvSafe : DlEnv :=
  { safeExists := true, zipExists := false, downloadRaises := false,
    downloadCreatesZip := false, extractResult := none }

/-- Environment with only the raw zip present. -/
def ceEnvZip : DlEnv :=
  { safeExists := false, zipExists := true, downloadRaises := false,
    downloadCreatesZip := false, extractResult := some "X.SAFE" }

/-- C5 witness: both checkpoint branches at concrete environments. -/
theorem C5_download_idempotent_checkpoints_witness :
    download_scene_with_progress "G" ceEnvSafe = ([], some (safePathOf "G")) ∧
    ((download_scene_with_progress "G" ceEnvZip).1 = [DlEffect.extraction] ∧
      DlEffect.network ∉ (download_scene_with_progress "G" ceEnvZip).1 ∧
      (download_scene_with_progress "G" ceEnvZip).2 = ceEnvZip.extractResult) :=
  ⟨(C5_download_idempotent_checkpoints "G" ceEnvSafe).1 rfl,
    (C5_download_idempotent_checkpoints "G" ceEnvZip).2 rfl rfl⟩

/-- C6: the scheduler loop never terminates of its own accord: every
iteration `n` produces a continuation (`some` sleep seconds) — sleeping
`interval_hours * 3600` seconds after a successful run and exactly 3600
seconds (the fixed 1-hour cooldown) after a run that raised — after which
iteration `n + 1` is attempted; no run outcome yields termination (`none`). -/
theorem C6_scheduler_never_terminates (interval_hours : Nat)
    (runs : Nat → Except String Unit) (n : Nat) :
    scheduled_trace interval_hours runs n =
      some (match runs n with
        | Except.ok _ => interval_hours * 3600
        | Except.error _ => 3600) := by
  unfold scheduled_trace scheduled_run_body
  cases runs n <;> rfl

/-- C7: a provider query error during the search makes `search_asf_data`
return the empty list; the adapter's boundary is a total function into a
plain list, so no exception propagates to its caller. -/
theorem C7_search_error_yields_empty (e : String) :
    search_asf_data (Except.error e) = [] := rfl

/-- C8: extraction identifies the product root as the first archive entry
carrying the fixed `.SAFE/` suffix marker; an archive with no such entry
yields failure (`none`) with no member extracted. -/
theorem C8_extract_requires_safe_root (zipNames : List String) (verifyOk : Bool) :
    (zipNames.filter isSafeEntryName = [] →
      extract_safe_optimized zipNames verifyOk = (none, [])) ∧
    (∀ e rest, zipNames.filter isSafeEntryName = e :: rest →
      (extract_safe_optimized zipNames verifyOk).1 =
        (if verifyOk then some (String.mk (rstripSlashL e.data)) else none) ∧
      (extract_safe_optimized zipNames verifyOk).2 =
        zipNames.filter fun m => startsWithL (rstripSlashL e.data) m.data) := by
  constructor
  · intro h
    unfold extract_safe_optimized
    rw [h]
  · intro e rest h
    unfold extract_safe_optimized
    rw [h]
    exact ⟨rfl, rfl⟩

/-- C8 witness: an archive with no `.SAFE/` entry extracts nothing and
returns no product path. -/
theorem C8_extract_requires_safe_root_witness :
    (["a.txt", "b/c.dat"].filter isSafeEntryName = []) ∧
    extract_safe_optimized ["a.txt", "b/c.dat"] true = (none, []) :=
  ⟨by decide,
    (C8_extract_requires_safe_root ["a.txt", "b/c.dat"] true).1 (by decide)⟩

end SARTracker
